import Mathlib

deriving instance DecidableEq for Except

/-!
Verification development for the kbase note-taking backend
(`backend/app/services/file_service.py`, `directory_service.py`,
`git_service.py`).

The Python services are shallowly embedded: raw path strings, file names and
file contents are `List Char`; file sizes and byte streams are `List Nat`
(one `Nat` per byte); POSIX absolute paths are lists of path segments
(`List (List Char)`).  Symbolic links are not modelled: `Path.resolve()` is
embedded as lexical `..`-elimination, which matches its behaviour on a vault
free of symlinks.  External subprocesses (ripgrep, git) are modelled by
explicit functions whose doc comments state which documented behaviour of the
tool they capture.
-/

namespace KBase

/-! ## Character-list text utilities (Python `str` operations) -/

/-- Python `needle in haystack` (substring containment) on char lists. -/
def containsSub (p : List Char) : List Char → Bool
  | [] => p.isEmpty
  | c :: cs => p.isPrefixOf (c :: cs) || containsSub p cs

/-- Python `str.lower()` (ASCII-faithful embedding). -/
def lowerL (s : List Char) : List Char := s.map Char.toLower

/-- Auxiliary splitter: returns the piece before the first separator and the
remaining pieces. -/
def splitChAux (sep : Char) : List Char → List Char × List (List Char)
  | [] => ([], [])
  | c :: cs =>
    let r := splitChAux sep cs
    if c = sep then ([], r.1 :: r.2) else (c :: r.1, r.2)

/-- Python `str.split(sep)` on char lists (keeps empty pieces, like
`"a//b".split("/") == ["a","","b"]`). -/
def splitCh (sep : Char) (s : List Char) : List (List Char) :=
  (splitChAux sep s).1 :: (splitChAux sep s).2

/-- Pieces of a string cut at whitespace, dropping empty pieces:
Python `str.split()` with no argument. -/
def splitWs (s : List Char) : List (List Char) :=
  (s.splitOnP Char.isWhitespace).filter (fun t => ¬ t.isEmpty)

/-! ## PathGuard: path validation (FileService._validate_path,
DirectoryService._validate_path) -/

/-- A POSIX absolute path, as its list of segments below the filesystem
root. -/
abbrev AbsPath := List (List Char)

/-- `pathlib` parsing of a relative path string into segments: splits on
`/`, collapses duplicate slashes and single-dot segments (`PurePosixPath`
keeps `..` segments). -/
def parseSegs (p : List Char) : List (List Char) :=
  (splitCh '/' p).filter (fun s => ¬ s.isEmpty && s ≠ ['.'])

/-- Lexical `Path.resolve()` on an absolute segment list: a `..` segment
removes the preceding segment (at the root, `/..` stays at the root).
Faithful to `resolve()` on a symlink-free tree. -/
def lexResolve (segs : List (List Char)) : AbsPath :=
  segs.foldl (fun acc s => if s = ['.', '.'] then acc.dropLast else acc ++ [s]) []

/-- `pathlib.Path.relative_to`: succeeds (returning the tail) exactly when
the base is a leading run of the path's segments. -/
def relativeTo : AbsPath → AbsPath → Option AbsPath
  | xs, [] => some xs
  | [], _ :: _ => none
  | x :: xs, y :: ys => if x = y then relativeTo xs ys else none

/-- Error kinds raised by the services (spec §7 vocabulary). -/
inductive VErr where
  | invalidPath
  | notFound
  | alreadyExists
  | binaryUnsupported
  deriving DecidableEq, Repr

/-- The absolute path obtained by FileService._validate_path before its
containment check: strip one leading slash, join with the vault root
(an absolute input overrides the root, as `pathlib`'s `/` does), and
resolve. `V` is the resolved vault root. -/
def resolvedTarget (V : AbsPath) (p : List Char) : AbsPath :=
  let p1 := if p.head? = some '/' then p.drop 1 else p
  if p1.head? = some '/' then lexResolve (parseSegs p1)
  else lexResolve (V ++ parseSegs p1)

/-- FileService._validate_path: strip a leading slash, join with the vault
root, resolve, and require `full.relative_to(vault)` to succeed. -/
def fileValidatePath (V : AbsPath) (p : List Char) : Except VErr AbsPath :=
  match relativeTo (resolvedTarget V p) V with
  | some _ => .ok (resolvedTarget V p)
  | none => .error .invalidPath

/-- DirectoryService._validate_path: first rejects any path containing the
substring `..`, a leading slash, or a backslash; then joins with the vault
root, resolves, and requires `relative_to(vault)` to succeed. -/
def dirValidatePath (V : AbsPath) (p : List Char) : Except VErr AbsPath :=
  if containsSub ['.', '.'] p || p.head? = some '/' || p.contains '\\' then
    .error .invalidPath
  else
    match relativeTo (lexResolve (V ++ parseSegs p)) V with
    | some _ => .ok (lexResolve (V ++ parseSegs p))
    | none => .error .invalidPath

/-- The vault root used for concrete instances: `/vault`. -/
def vaultV : AbsPath := [['v', 'a', 'u', 'l', 't']]

/-! ### Lemmas about the path model -/

theorem relativeTo_isSome_iff (xs ys : AbsPath) :
    (relativeTo xs ys).isSome ↔ ys <+: xs := by
  induction ys generalizing xs with
  | nil => simp [relativeTo]
  | cons y ys ih =>
    cases xs with
    | nil => simp [relativeTo]
    | cons x xs =>
      by_cases h : x = y
      · subst h
        simp [relativeTo, ih, List.cons_prefix_cons]
      · simp [relativeTo, h, List.cons_prefix_cons, Ne.symm h]

/-- The raw path `a/../b`. -/
def pathUpInside : List Char := ['a', '/', '.', '.', '/', 'b']

/-- The raw path `a\b` (one backslash). -/
def pathBackslash : List Char := ['a', '\\', 'b']

/-! ## Claims C1, C2, C4: path validation -/

/-- C1 (counterexample): `a/../b` contains a parent-directory segment, yet
FileService._validate_path accepts it (it resolves to `/vault/b`, inside the
vault), so validation does not raise InvalidPath there. -/
theorem c1_counterexample :
    ['.', '.'] ∈ parseSegs pathUpInside ∧
    fileValidatePath vaultV pathUpInside = .ok [['v', 'a', 'u', 'l', 't'], ['b']] := by
  constructor
  · decide
  · decide

/-- C1 (amended): DirectoryService._validate_path rejects every raw path
containing `..` as a substring (hence every path with a parent-directory
segment) with InvalidPath; FileService._validate_path performs no such
textual check and accepts a `..` segment whose resolution stays inside the
vault, such as `a/../b`. -/
theorem c1_amended :
    (∀ (V : AbsPath) (p : List Char), containsSub ['.', '.'] p = true →
      dirValidatePath V p = .error .invalidPath) ∧
    fileValidatePath vaultV pathUpInside = .ok [['v', 'a', 'u', 'l', 't'], ['b']] := by
  constructor
  · intro V p h
    simp [dirValidatePath, h]
  · decide

/-- Witness for `c1_amended` at the concrete path `..`. -/
theorem c1_amended_witness :
    dirValidatePath vaultV ['.', '.'] = .error .invalidPath :=
  c1_amended.1 vaultV ['.', '.'] (by decide)

/-- C2 (counterexample): the empty raw path resolves to the vault root
itself (not a strict descendant), yet both validators accept it:
`Path.relative_to` succeeds on equal paths, so no InvalidPath is raised.
Also, `a/../b` resolves to a strict descendant of the vault root yet
DirectoryService._validate_path rejects it (textual `..` check), so for
that validator the success condition is not the descendant check alone. -/
theorem c2_counterexample :
    fileValidatePath vaultV [] = .ok vaultV ∧
    dirValidatePath vaultV [] = .ok vaultV ∧
    resolvedTarget vaultV [] = vaultV ∧
    dirValidatePath vaultV pathUpInside = .error .invalidPath ∧
    vaultV <+: lexResolve (vaultV ++ parseSegs pathUpInside) := by
  refine ⟨by decide, by decide, by decide, by decide, ?_⟩
  decide

/-- C2 (amended): FileService._validate_path succeeds exactly when the
canonicalized absolute form of (vault root joined with the path after
stripping one optional leading slash) is a descendant of the vault root OR
EQUAL TO it; DirectoryService._validate_path succeeds exactly when that
descendant-or-equal condition holds AND the raw path passes its textual
screen (no `..` substring, no leading slash, no backslash); in particular
the empty path is accepted by both and yields the vault root, and paths
resolving outside the root fail InvalidPath (the `↔`, right-to-left at a
non-prefix). -/
theorem c2_amended :
    (∀ (V : AbsPath) (p : List Char),
      (∃ full, fileValidatePath V p = .ok full) ↔ V <+: resolvedTarget V p) ∧
    (∀ (V : AbsPath) (p : List Char),
      (∃ full, dirValidatePath V p = .ok full) ↔
        (containsSub ['.', '.'] p = false ∧ p.head? ≠ some '/' ∧
         p.contains '\\' = false ∧ V <+: lexResolve (V ++ parseSegs p))) ∧
    (∀ V : AbsPath, lexResolve V = V →
      fileValidatePath V [] = .ok V ∧ dirValidatePath V [] = .ok V) := by
  refine ⟨?_, ?_, ?_⟩
  · intro V p
    unfold fileValidatePath
    cases h : relativeTo (resolvedTarget V p) V with
    | some t =>
      have : (relativeTo (resolvedTarget V p) V).isSome := by rw [h]; rfl
      simp [(relativeTo_isSome_iff _ _).mp this]
    | none =>
      have : ¬ (relativeTo (resolvedTarget V p) V).isSome := by rw [h]; simp
      rw [relativeTo_isSome_iff] at this
      simp [this]
  · intro V p
    unfold dirValidatePath
    by_cases hscr :
        (containsSub ['.', '.'] p || p.head? = some '/' || p.contains '\\') = true
    · rw [if_pos hscr]
      simp only [Bool.or_eq_true, decide_eq_true_eq] at hscr
      constructor
      · rintro ⟨full, hfull⟩; cases hfull
      · rintro ⟨h1, h2, h3, _⟩
        rcases hscr with (hs | hs) | hs
        · rw [h1] at hs; cases hs
        · exact (h2 hs).elim
        · rw [h3] at hs; cases hs
    · rw [if_neg hscr]
      simp only [Bool.or_eq_true, decide_eq_true_eq, not_or, Bool.not_eq_true] at hscr
      obtain ⟨⟨h1, h2⟩, h3⟩ := hscr
      have h3m : '\\' ∉ p := by simpa using h3
      cases h : relativeTo (lexResolve (V ++ parseSegs p)) V with
      | some t =>
        have : (relativeTo (lexResolve (V ++ parseSegs p)) V).isSome := by rw [h]; rfl
        simp [h1, h2, h3m, (relativeTo_isSome_iff _ _).mp this]
      | none =>
        have : ¬ (relativeTo (lexResolve (V ++ parseSegs p)) V).isSome := by
          rw [h]; simp
        rw [relativeTo_isSome_iff] at this
        simp [this]
  · intro V hV
    have hrt : resolvedTarget V [] = V := by
      simp [resolvedTarget, parseSegs, splitCh, splitChAux, hV]
    have hdj : lexResolve (V ++ parseSegs []) = V := by
      simp [parseSegs, splitCh, splitChAux, hV]
    have hs : (relativeTo V V).isSome :=
      (relativeTo_isSome_iff V V).mpr (List.prefix_refl V)
    constructor
    · unfold fileValidatePath
      rw [hrt]
      cases h : relativeTo V V with
      | none => rw [h] at hs; simp at hs
      | some t => simp
    · unfold dirValidatePath
      rw [if_neg (by decide), hdj]
      cases h : relativeTo V V with
      | none => rw [h] at hs; simp at hs
      | some t => simp

/-- Witness for `c2_amended`: a nested path inside the vault validates
through both validators, and the empty path validates to the vault root
itself. -/
theorem c2_amended_witness :
    (∃ full, fileValidatePath vaultV ['n', '/', 'x'] = .ok full) ∧
    (∃ full, dirValidatePath vaultV ['n', '/', 'x'] = .ok full) ∧
    fileValidatePath vaultV [] = .ok vaultV ∧
    dirValidatePath vaultV [] = .ok vaultV :=
  ⟨(c2_amended.1 vaultV ['n', '/', 'x']).mpr (by decide),
   (c2_amended.2.1 vaultV ['n', '/', 'x']).mpr (by decide),
   (c2_amended.2.2 vaultV (by decide)).1,
   (c2_amended.2.2 vaultV (by decide)).2⟩

/-- C4 (counterexample): `a\b` contains a backslash, yet
FileService._validate_path accepts it (on POSIX the backslash is an ordinary
filename character and the path stays inside the vault). -/
theorem c4_counterexample :
    '\\' ∈ pathBackslash ∧
    fileValidatePath vaultV pathBackslash =
      .ok [['v', 'a', 'u', 'l', 't'], ['a', '\\', 'b']] := by
  constructor
  · decide
  · decide

/-- C4 (amended): only DirectoryService._validate_path rejects every path
containing a backslash with InvalidPath; FileService._validate_path has no
backslash check and accepts backslash-bearing paths that stay inside the
vault. -/
theorem c4_amended :
    (∀ (V : AbsPath) (p : List Char), '\\' ∈ p →
      dirValidatePath V p = .error .invalidPath) ∧
    fileValidatePath vaultV pathBackslash =
      .ok [['v', 'a', 'u', 'l', 't'], ['a', '\\', 'b']] := by
  constructor
  · intro V p h
    simp [dirValidatePath, h]
  · decide

/-- Witness for `c4_amended` at the concrete path `a\b`. -/
theorem c4_amended_witness :
    dirValidatePath vaultV pathBackslash = .error .invalidPath :=
  c4_amended.1 vaultV pathBackslash (by decide)

/-! ## BinaryClassifier (FileService._is_binary_file, GitService._is_binary_file)

A file's on-disk bytes are a `List Nat` (one entry per byte).  The embedding
covers an existing regular readable file; the nonexistence and I/O-error
branches of the Python code concern the filesystem, not the byte contents. -/

/-- The strict UTF-8 acceptor, as a byte-level automaton.  `pending` is the
number of continuation bytes still expected; when `pending > 0` the next
byte must lie in `[lo, hi]` and the bytes after it in `[0x80, 0xBF]`.  Lead
bytes select the ranges that exclude overlong encodings (`C0`/`C1`,
`E0 80..9F`, `F0 80..8F`), surrogates (`ED A0..BF`), and code points above
`U+10FFFF` (`F4 90..`, `F5..FF`) — exactly what Python's strict `utf-8`
codec rejects. -/
def utf8Go : Nat → Nat → Nat → List Nat → Bool
  | 0, _, _, [] => true
  | 0, _, _, b :: bs =>
    if b < 0x80 then utf8Go 0 0 0 bs
    else if b < 0xC2 then false
    else if b < 0xE0 then utf8Go 1 0x80 0xBF bs
    else if b = 0xE0 then utf8Go 2 0xA0 0xBF bs
    else if b = 0xED then utf8Go 2 0x80 0x9F bs
    else if b < 0xF0 then utf8Go 2 0x80 0xBF bs
    else if b = 0xF0 then utf8Go 3 0x90 0xBF bs
    else if b < 0xF4 then utf8Go 3 0x80 0xBF bs
    else if b = 0xF4 then utf8Go 3 0x80 0x8F bs
    else false
  | _ + 1, _, _, [] => false
  | n + 1, lo, hi, b :: bs =>
    if lo ≤ b ∧ b ≤ hi then utf8Go n 0x80 0xBF bs else false

/-- Whether a byte stream decodes under Python's strict `utf-8` codec. -/
def utf8Valid (bs : List Nat) : Bool := utf8Go 0 0 0 bs

/-- FileService._is_binary_file / GitService._is_binary_file on the file's
bytes: size over 10 MiB → binary; a NUL among the first 512 bytes → binary;
otherwise UTF-8-validate the whole file when it is at most 1 MiB, and only
the 512-byte prefix when it is larger. -/
def isBinaryFile (bytes : List Nat) : Bool :=
  if 10485760 < bytes.length then true
  else if (bytes.take 512).contains 0 then true
  else if bytes.length ≤ 1048576 then ! utf8Valid bytes
  else ! utf8Valid (bytes.take 512)

theorem utf8Valid_replicate97 (n : Nat) :
    utf8Valid (List.replicate n 97) = true := by
  unfold utf8Valid
  induction n with
  | zero => rfl
  | succ n ih =>
    rw [List.replicate_succ]
    simpa [utf8Go] using ih

/-- An 11 MiB file of ASCII `a` bytes. -/
def c5BigFile : List Nat := List.replicate 11534336 97

/-! ## Claim C5: binary classification -/

/-- C5 (counterexample): an 11 MiB file of `a` bytes is valid UTF-8 with no
NUL in its first 512 bytes, yet the classifier flags it binary (size
threshold), so "not binary for every valid UTF-8 text file containing no NUL
in its first 512 bytes" fails. -/
theorem c5_counterexample :
    utf8Valid c5BigFile = true ∧
    (c5BigFile.take 512).contains 0 = false ∧
    isBinaryFile c5BigFile = true := by
  refine ⟨utf8Valid_replicate97 _, ?_, ?_⟩
  · rw [c5BigFile, List.take_replicate]
    norm_num
  · have h : 10485760 < c5BigFile.length := by
      rw [c5BigFile, List.length_replicate]; norm_num
    rw [isBinaryFile, if_pos h]

/-- C5 (amended): the classifier returns not-binary for an empty file,
binary for every file over 10 MiB, binary whenever the first 512 bytes
contain a NUL byte, and not-binary for every valid UTF-8 file of at most
1 MiB whose first 512 bytes contain no NUL (valid UTF-8 files above the
size thresholds can still be flagged binary). -/
theorem c5_amended :
    isBinaryFile [] = false ∧
    (∀ bs : List Nat, 10485760 < bs.length → isBinaryFile bs = true) ∧
    (∀ bs : List Nat, 0 ∈ bs.take 512 → isBinaryFile bs = true) ∧
    (∀ bs : List Nat, bs.length ≤ 1048576 → utf8Valid bs = true →
      0 ∉ bs.take 512 → isBinaryFile bs = false) := by
  refine ⟨by decide, ?_, ?_, ?_⟩
  · intro bs h
    simp [isBinaryFile, h]
  · intro bs h
    by_cases hl : 10485760 < bs.length <;> simp [isBinaryFile, hl, h]
  · intro bs h1 h2 h3
    have hA : ¬ 10485760 < bs.length := by omega
    simp [isBinaryFile, hA, h1, h2, h3]

/-- Witness for `c5_amended` at concrete byte streams. -/
theorem c5_amended_witness :
    isBinaryFile (List.replicate 11534336 97) = true ∧
    isBinaryFile [0] = true ∧
    isBinaryFile [104] = false :=
  ⟨c5_amended.2.1 _ (by rw [List.length_replicate]; norm_num),
   c5_amended.2.2.1 [0] (by decide),
   c5_amended.2.2.2 [104] (by decide) (by decide) (by decide)⟩

/-! ## FileStore note operations (FileService.create_note / get_note /
delete_note)

The vault is modelled as a finite map from resolved absolute file paths to
decoded text contents; directories are implicit (directory/file collisions
and `mkdir` effects are outside the model).  `write_text(..., 'utf-8')`
stores the UTF-8 encoding of the content, and `_is_binary_file` inspects
those stored bytes. -/

/-- UTF-8 encoding of one character (what `write_text` emits). -/
def utf8EncodeChar (ch : Char) : List Nat :=
  let n := ch.toNat
  if n < 0x80 then [n]
  else if n < 0x800 then [0xC0 + n / 64, 0x80 + n % 64]
  else if n < 0x10000 then [0xE0 + n / 4096, 0x80 + n / 64 % 64, 0x80 + n % 64]
  else [0xF0 + n / 262144, 0x80 + n / 4096 % 64, 0x80 + n / 64 % 64, 0x80 + n % 64]

/-- UTF-8 encoding of a text. -/
def utf8Encode (s : List Char) : List Nat := (s.map utf8EncodeChar).flatten

/-- Vault contents: resolved absolute path ↦ text content. -/
abbrev VaultFS := List (AbsPath × List Char)

/-- Filesystem lookup of a file's content at a resolved path. -/
def lookupFS (fs : VaultFS) (k : AbsPath) : Option (List Char) :=
  match fs.find? (fun e => decide (e.1 = k)) with
  | some e => some e.2
  | none => none

/-- Rendering of `f"/{normalized_path}"`: the vault-relative segments with
exactly one leading slash. -/
def renderRel (segs : AbsPath) : List Char :=
  '/' :: (segs.intersperse ['/']).flatten

/-- FileService.create_note: validate the path, fail `AlreadyExists` if the
target is present, write the content, and echo the vault-rooted normalized
path.  (`full.relative_to(vault)` is `full` minus the vault prefix, which
validation has just established.) -/
def createNote (V : AbsPath) (fs : VaultFS) (p c : List Char) :
    Except VErr (List Char × VaultFS) :=
  match fileValidatePath V p with
  | .error e => .error e
  | .ok full =>
    match lookupFS fs full with
    | some _ => .error .alreadyExists
    | none => .ok (renderRel (full.drop V.length), (full, c) :: fs)

/-- Universal-newline translation performed by `read_text` (text mode with
`newline=None`): `\r\n` and lone `\r` both become `\n`. -/
def univNl : List Char → List Char
  | [] => []
  | [c] => if c = '\r' then ['\n'] else [c]
  | c :: c2 :: cs =>
    if c = '\r' then
      if c2 = '\n' then '\n' :: univNl cs else '\n' :: univNl (c2 :: cs)
    else c :: univNl (c2 :: cs)

theorem univNl_eq_self (s : List Char) (h : '\r' ∉ s) : univNl s = s := by
  induction s with
  | nil => rfl
  | cons c cs ih =>
    have hc : c ≠ '\r' := fun hc => h (by simp [hc])
    have hcs : '\r' ∉ cs := fun hm => h (by simp [hm])
    cases cs with
    | nil => simp [univNl, hc]
    | cons c2 cs2 => simp [univNl, hc, ih hcs]

/-- FileService.get_note: validate, fail `NotFound` if absent, fail
`BinaryUnsupported` if the stored bytes are classified binary, else return
the content as `read_text` decodes it — with universal-newline translation
applied — and the vault-rooted normalized path. -/
def getNote (V : AbsPath) (fs : VaultFS) (p : List Char) :
    Except VErr (List Char × List Char) :=
  match fileValidatePath V p with
  | .error e => .error e
  | .ok full =>
    match lookupFS fs full with
    | none => .error .notFound
    | some c =>
      if isBinaryFile (utf8Encode c) then .error .binaryUnsupported
      else .ok (univNl c, renderRel (full.drop V.length))

/-- FileService.delete_note: validate, fail `NotFound` if absent, unlink,
and echo the vault-rooted normalized path. -/
def deleteNote (V : AbsPath) (fs : VaultFS) (p : List Char) :
    Except VErr (List Char × VaultFS) :=
  match fileValidatePath V p with
  | .error e => .error e
  | .ok full =>
    match lookupFS fs full with
    | none => .error .notFound
    | some _ =>
      .ok (renderRel (full.drop V.length), fs.filter (fun e => ! decide (e.1 = full)))

theorem lookupFS_cons_self (fs : VaultFS) (k : AbsPath) (c : List Char) :
    lookupFS ((k, c) :: fs) k = some c := by
  simp [lookupFS, List.find?]

theorem lookupFS_filter_self (fs : VaultFS) (k : AbsPath) :
    lookupFS (fs.filter (fun e => ! decide (e.1 = k))) k = none := by
  induction fs with
  | nil => rfl
  | cons e fs ih =>
    by_cases h : e.1 = k
    · simpa [List.filter, h] using ih
    · simpa [lookupFS, List.filter, List.find?, h] using ih

/-! ## Claim C6: create/get/delete round trip -/

/-- The raw path `a.md`. -/
def pNulNote : List Char := ['a', '.', 'm', 'd']

/-- A content starting with a NUL character. -/
def cNul : List Char := [Char.ofNat 0, 'h']

/-- A content containing a carriage return. -/
def cCr : List Char := ['a', '\r', 'b']

/-- C6 (counterexample): creating `a.md` with content `"\x00h"` succeeds,
but reading it back fails with the binary-file error (the stored bytes have
a NUL in their first 512), not with the written content; and creating with
content `"a\rb"` succeeds but reads back as `"a\nb"` (`read_text`'s
universal-newline translation), not the written content — so "for every
string content c, create then get returns c" fails. -/
theorem c6_counterexample :
    (createNote vaultV [] pNulNote cNul =
      .ok (['/', 'a', '.', 'm', 'd'],
           [([['v', 'a', 'u', 'l', 't'], ['a', '.', 'm', 'd']], cNul)]) ∧
     getNote vaultV [([['v', 'a', 'u', 'l', 't'], ['a', '.', 'm', 'd']], cNul)]
        pNulNote = .error .binaryUnsupported) ∧
    (createNote vaultV [] pNulNote cCr =
      .ok (['/', 'a', '.', 'm', 'd'],
           [([['v', 'a', 'u', 'l', 't'], ['a', '.', 'm', 'd']], cCr)]) ∧
     getNote vaultV [([['v', 'a', 'u', 'l', 't'], ['a', '.', 'm', 'd']], cCr)]
        pNulNote = .ok (['a', '\n', 'b'], ['/', 'a', '.', 'm', 'd']) ∧
     ['a', '\n', 'b'] ≠ cCr) := by
  refine ⟨⟨by decide, by decide⟩, by decide, by decide, by decide⟩

/-- C6 (amended): for every vault-relative path `p` and content `c` WHOSE
STORED UTF-8 ENCODING THE CLASSIFIER DOES NOT FLAG AS BINARY (no NUL in the
first 512 bytes, within the size thresholds) AND WHICH CONTAINS NO CARRIAGE
RETURN (so `read_text`'s universal-newline translation is the identity):
`create_note(p, c)` followed by `get_note(p)` returns content `c` and the
same single-leading-slash normalized path that create echoed; and
`delete_note(p)` followed by `get_note(p)` fails `NotFound`. -/
theorem c6_amended :
    ∀ (V : AbsPath) (fs : VaultFS) (p c ret : List Char) (fs1 : VaultFS),
      createNote V fs p c = .ok (ret, fs1) →
      isBinaryFile (utf8Encode c) = false →
      '\r' ∉ c →
      getNote V fs1 p = .ok (c, ret) ∧
      ∀ (r2 : List Char) (fs2 : VaultFS), deleteNote V fs1 p = .ok (r2, fs2) →
        getNote V fs2 p = .error .notFound := by
  intro V fs p c ret fs1 hc hbin hcr
  cases hv : fileValidatePath V p with
  | error e => rw [createNote, hv] at hc; cases hc
  | ok full =>
    rw [createNote, hv] at hc
    dsimp only at hc
    cases hl : lookupFS fs full with
    | some c0 => rw [hl] at hc; cases hc
    | none =>
      rw [hl] at hc
      dsimp only at hc
      injection hc with hc
      injection hc with hret hfs1
      subst hret; subst hfs1
      constructor
      · rw [getNote, hv]
        dsimp only
        rw [lookupFS_cons_self]
        dsimp only
        simp [hbin, univNl_eq_self c hcr]
      · intro r2 fs2 hd
        rw [deleteNote, hv] at hd
        dsimp only at hd
        rw [lookupFS_cons_self] at hd
        dsimp only at hd
        injection hd with hd
        injection hd with hr2 hfs2
        subst hfs2
        rw [getNote, hv]
        dsimp only
        rw [lookupFS_filter_self]

/-- Witness for `c6_amended`: the round trip at path `hi`, content `hey`. -/
theorem c6_amended_witness :
    getNote vaultV [([['v', 'a', 'u', 'l', 't'], ['h', 'i']], ['h', 'e', 'y'])]
        ['h', 'i'] = .ok (['h', 'e', 'y'], ['/', 'h', 'i']) ∧
    getNote vaultV [] ['h', 'i'] = .error .notFound :=
  ⟨(c6_amended vaultV [] ['h', 'i'] ['h', 'e', 'y'] ['/', 'h', 'i']
      [([['v', 'a', 'u', 'l', 't'], ['h', 'i']], ['h', 'e', 'y'])]
      (by decide) (by decide) (by decide)).1,
   (c6_amended vaultV [] ['h', 'i'] ['h', 'e', 'y'] ['/', 'h', 'i']
      [([['v', 'a', 'u', 'l', 't'], ['h', 'i']], ['h', 'e', 'y'])]
      (by decide) (by decide) (by decide)).2 ['/', 'h', 'i'] [] (by decide)⟩

/-! ## SearchEngine (FileService.search_notes and helpers)

A vault file for the search model: its parent directory segments and name
below the vault root, its decoded text content, the BinaryClassifier's
verdict `bin` on its on-disk bytes, and its modification time.  The
external ripgrep calls are modelled as follows: ripgrep skips hidden files
and does not descend into hidden directories (so nothing under `.git` is
scanned), and — since the service initializes the vault as a git
repository with a fixed `.gitignore` at startup — it also skips the
gitignored files (the listed binary extensions and `_resources/`);
`rg -i` regex matching is modelled for patterns built from literal
characters and the `.` metacharacter, with case-insensitivity modelled by
case-folding both sides; the `--iglob *phrase*` filename match is modelled
for slash-free phrases without glob metacharacters, for which the
gitignore-style glob applies to the basename and degenerates to
case-insensitive substring containment (a phrase containing `/` would be
matched against the full relative path instead). -/

structure VFile where
  dirs : List (List Char)
  name : List Char
  content : List Char
  bin : Bool
  modified : Int
  deriving DecidableEq, Repr

/-- Does ripgrep skip this file (hidden: some path segment starts with a
dot)? -/
def hiddenF (f : VFile) : Bool :=
  (f.dirs ++ [f.name]).any (fun s => s.head? = some '.')

/-- The file-extension patterns of the fixed `.gitignore` that
GitService.ensure_gitignore writes into the vault. -/
def ignoredExts : List (List Char) :=
  [".png".data, ".jpg".data, ".jpeg".data, ".gif".data, ".bmp".data,
   ".ico".data, ".svg".data, ".webp".data, ".pdf".data, ".zip".data,
   ".tar".data, ".gz".data, ".exe".data, ".dll".data, ".so".data,
   ".dylib".data]

/-- Does the vault's fixed `.gitignore` (written by ensure_gitignore:
the binary extensions, `_resources/`, `.git/`) make ripgrep skip this
file?  The service initializes the vault as a git repository at startup,
so ripgrep's default gitignore filtering applies. -/
def gitIgnored (f : VFile) : Bool :=
  ignoredExts.any (fun e => e.isSuffixOf f.name) ||
    f.dirs.contains ("_resources".data) || f.dirs.contains (".git".data)

/-- Is the file inside the version-control metadata directory? -/
def underGit (f : VFile) : Bool :=
  f.dirs.contains ['.', 'g', 'i', 't']

/-- The lines of a text (Python `str.split('\n')`). -/
def linesOf (s : List Char) : List (List Char) := splitCh '\n' s

/-- Does the regex pattern match a prefix of the text?  Pattern characters
are literals except `.`, which matches any character. -/
def reAt : List Char → List Char → Bool
  | [], _ => true
  | _ :: _, [] => false
  | p :: ps, c :: cs => (p = '.' || p = c) && reAt ps cs

/-- Does the regex pattern match anywhere in the text (ripgrep per-line
regex search, for the literal-plus-dot fragment)? -/
def reSearch (pat : List Char) : List Char → Bool
  | [] => reAt pat []
  | c :: cs => reAt pat (c :: cs) || reSearch pat cs

/-- `rg -i -l phrase .`: some line of the case-folded content matches the
case-folded pattern. -/
def rgContentHit (phrase : List Char) (f : VFile) : Bool :=
  (linesOf (lowerL f.content)).any (fun l => reSearch (lowerL phrase) l)

/-- `rg --files --iglob *phrase*`: the case-folded name contains the
case-folded phrase. -/
def rgNameHit (phrase : List Char) (f : VFile) : Bool :=
  containsSub (lowerL phrase) (lowerL f.name)

/-- One phrase's match set on the primary (ripgrep) path: ripgrep skips
hidden files and gitignored files; the service adds a file from either the
content pass or the filename pass and drops it when `_is_binary_file`
flags it. -/
def rgPhraseFiles (fs : List VFile) (phrase : List Char) : List VFile :=
  fs.filter (fun f =>
    !hiddenF f && !gitIgnored f &&
      (rgContentHit phrase f || rgNameHit phrase f) && !f.bin)

/-- FileService._fallback_search_files: walk all files (`rglob('*')`
includes hidden directories such as `.git`), skip binary files, and keep a
file when the case-folded phrase occurs in its name or its content. -/
def fallbackSearchFiles (fs : List VFile) (phrase : List Char) : List VFile :=
  fs.filter (fun f =>
    !f.bin &&
      (containsSub (lowerL phrase) (lowerL f.name) ||
       containsSub (lowerL phrase) (lowerL f.content)))

/-- Set intersection on match lists (`all_matches.intersection`). -/
def interFS (a b : List VFile) : List VFile :=
  a.filter (fun f => decide (f ∈ b))

/-- The candidate set: the intersection of the per-phrase match sets
(`all_matches` in _search_with_ripgrep), given the per-phrase matcher. -/
def searchCandidates (pm : List Char → List VFile) : List (List Char) → List VFile
  | [] => []
  | p :: ps => ps.foldl (fun acc q => interFS acc (pm q)) (pm p)

/-- Python `str.strip()`. -/
def stripL (l : List Char) : List Char :=
  ((l.dropWhile Char.isWhitespace).reverse.dropWhile Char.isWhitespace).reverse

/-- A search snippet: 1-based line number and stripped line content. -/
structure Snip where
  ln : Nat
  text : List Char
  deriving DecidableEq, Repr

/-- Snippet extraction for a candidate file (`rg -i -n --max-count 3` with
the phrases OR-ed, plus the 3-per-file guard): the first three lines on
which some phrase matches case-insensitively. -/
def snippetsFor (phrases : List (List Char)) (f : VFile) : List Snip :=
  ((((linesOf f.content).enum).filter
      (fun e => phrases.any (fun p => reSearch (lowerL p) (lowerL e.2)))).map
    (fun e => ⟨e.1 + 1, stripL e.2⟩)).take 3

/-- One entry of a search response. -/
structure SResult where
  path : List Char
  name : List Char
  snippets : List Snip
  modified : Int
  deriving DecidableEq, Repr

/-- A search response: entries plus the reported total. -/
structure SResponse where
  results : List SResult
  total : Nat
  deriving DecidableEq, Repr

/-- Insertion into a list sorted by `modified` descending. -/
def insertDesc (r : SResult) : List SResult → List SResult
  | [] => [r]
  | x :: xs => if x.modified ≤ r.modified then r :: x :: xs else x :: insertDesc r xs

/-- `results.sort(key=modified, reverse=True)`. -/
def sortByModDesc (rs : List SResult) : List SResult :=
  rs.foldr insertDesc []

/-- The result list search_notes assembles on the primary path: the ripgrep
candidate set for the query's phrases, with snippets and modified times
attached, sorted by modified descending and truncated to `limit`. -/
def searchResults (fs : List VFile) (q : List Char) (limit : Nat) : List SResult :=
  ((sortByModDesc ((searchCandidates (rgPhraseFiles fs) (splitWs q)).map
      (fun f => SResult.mk (renderRel (f.dirs ++ [f.name])) f.name
        (snippetsFor (splitWs q) f) f.modified))).take limit)

/-- FileService.search_notes on the primary path: empty or whitespace-only
query short-circuits to the empty response; otherwise the assembled result
list is returned with the post-truncation count reported as `total`. -/
def searchNotes (fs : List VFile) (q : List Char) (limit : Nat) : SResponse :=
  if (q.filter (fun c => !c.isWhitespace)).isEmpty then ⟨[], 0⟩
  else if (splitWs q).isEmpty then ⟨[], 0⟩
  else ⟨searchResults fs q limit, (searchResults fs q limit).length⟩

/-! ### Lemmas about the search model -/

theorem mem_interFS (f : VFile) (a b : List VFile) :
    f ∈ interFS a b ↔ f ∈ a ∧ f ∈ b := by
  simp [interFS]

theorem mem_foldl_interFS (pm : List Char → List VFile) (ps : List (List Char)) :
    ∀ (acc : List VFile) (f : VFile),
      f ∈ ps.foldl (fun acc q => interFS acc (pm q)) acc ↔
        f ∈ acc ∧ ∀ q ∈ ps, f ∈ pm q := by
  induction ps with
  | nil => intro acc f; simp
  | cons p ps ih =>
    intro acc f
    rw [List.foldl_cons, ih, mem_interFS]
    constructor
    · rintro ⟨⟨h1, h2⟩, h3⟩
      exact ⟨h1, by simpa [h2] using h3⟩
    · rintro ⟨h1, h2⟩
      exact ⟨⟨h1, h2 p (by simp)⟩, fun q hq => h2 q (by simp [hq])⟩

theorem mem_searchCandidates (pm : List Char → List VFile)
    (p : List Char) (ps : List (List Char)) (f : VFile) :
    f ∈ searchCandidates pm (p :: ps) ↔ ∀ q ∈ p :: ps, f ∈ pm q := by
  rw [searchCandidates, mem_foldl_interFS]
  constructor
  · rintro ⟨h1, h2⟩ q hq
    rcases List.mem_cons.mp hq with h | h
    · subst h; exact h1
    · exact h2 q h
  · intro h
    exact ⟨h p (by simp), fun q hq => h q (by simp [hq])⟩

theorem hiddenF_of_underGit (f : VFile) (h : underGit f = true) :
    hiddenF f = true := by
  rw [underGit] at h
  replace h : ['.', 'g', 'i', 't'] ∈ f.dirs := by simpa using h
  rw [hiddenF, List.any_eq_true]
  exact ⟨['.', 'g', 'i', 't'], by simp [h], by decide⟩

/-! ## Claim C3: search never surfaces .git or binary files -/

/-- A non-binary file inside the version-control metadata directory whose
content contains `key`. -/
def gitConfigFile : VFile :=
  ⟨[['.', 'g', 'i', 't']], ['c', 'o', 'n', 'f', 'i', 'g'],
   ['k', 'e', 'y'], false, 0⟩

/-- An ordinary non-binary vault file named `note` with content `key`. -/
def noteFile : VFile :=
  ⟨[], ['n', 'o', 't', 'e'], ['k', 'e', 'y'], false, 0⟩

/-- C3 (counterexample): on the in-process fallback path the candidate scan
(`rglob('*')`) descends into `.git`, so a matching non-binary file under the
version-control metadata directory IS returned. -/
theorem c3_counterexample :
    gitConfigFile ∈ fallbackSearchFiles [gitConfigFile] ['k', 'e', 'y'] ∧
    underGit gitConfigFile = true := by
  constructor
  · decide
  · decide

/-- C3 (amended): on the primary ripgrep path no candidate is under the
version-control metadata directory (ripgrep skips hidden files) and none is
flagged binary; on the in-process fallback path binary files are still
excluded, but files under `.git` can be returned. -/
theorem c3_amended :
    (∀ (fs : List VFile) (ps : List (List Char)) (f : VFile),
      f ∈ searchCandidates (rgPhraseFiles fs) ps →
        underGit f = false ∧ f.bin = false) ∧
    (∀ (fs : List VFile) (p : List Char) (f : VFile),
      f ∈ fallbackSearchFiles fs p → f.bin = false) := by
  constructor
  · intro fs ps f hmem
    cases ps with
    | nil => cases hmem
    | cons p ps =>
      have h := (mem_searchCandidates (rgPhraseFiles fs) p ps f).mp hmem p (by simp)
      rw [rgPhraseFiles, List.mem_filter] at h
      have h2 := h.2
      simp only [Bool.and_eq_true, Bool.not_eq_true'] at h2
      refine ⟨?_, h2.2⟩
      cases hug : underGit f with
      | false => rfl
      | true => rw [hiddenF_of_underGit f hug] at h2; cases h2.1.1.1
  · intro fs p f hmem
    rw [fallbackSearchFiles, List.mem_filter] at hmem
    have h2 := hmem.2
    simp only [Bool.and_eq_true, Bool.not_eq_true'] at h2
    exact h2.1

/-- Witness for `c3_amended`: the ordinary file `note` is a ripgrep
candidate for the query phrase `key` and the theorem applies to it, and
likewise on the fallback path. -/
theorem c3_amended_witness :
    (underGit noteFile = false ∧ noteFile.bin = false) ∧ noteFile.bin = false :=
  ⟨c3_amended.1 [noteFile] [['k', 'e', 'y']] noteFile (by decide),
   c3_amended.2 [noteFile] ['k', 'e', 'y'] noteFile (by decide)⟩

/-! ## Claim C7: AND-of-substrings candidate semantics -/

theorem mem_insertDesc (x r : SResult) (l : List SResult) :
    x ∈ insertDesc r l ↔ x = r ∨ x ∈ l := by
  induction l with
  | nil => simp [insertDesc]
  | cons y ys ih =>
    rw [insertDesc]
    by_cases h : y.modified ≤ r.modified
    · simp [h]
    · rw [if_neg h]
      simp [ih]
      tauto

theorem mem_sortByModDesc (x : SResult) (rs : List SResult) :
    x ∈ sortByModDesc rs ↔ x ∈ rs := by
  induction rs with
  | nil => simp [sortByModDesc]
  | cons r rs ih =>
    rw [sortByModDesc, List.foldr_cons, mem_insertDesc]
    rw [sortByModDesc] at ih
    simp [ih]

/-- C8 (confirmed): search_notes returns the empty response on an all-
whitespace (or empty) query; every result carries at most 3 snippets; at
most `limit` results are returned; and `total` is the post-truncation
result count (hence at most `limit`). -/
theorem c8_search_shape (fs : List VFile) (q : List Char) (limit : Nat) :
    ((∀ ch ∈ q, ch.isWhitespace) → searchNotes fs q limit = ⟨[], 0⟩) ∧
    (∀ r ∈ (searchNotes fs q limit).results, r.snippets.length ≤ 3) ∧
    (searchNotes fs q limit).results.length ≤ limit ∧
    (searchNotes fs q limit).total = (searchNotes fs q limit).results.length := by
  refine ⟨?_, ?_, ?_, ?_⟩
  · intro hws
    have h0 : q.filter (fun c => !c.isWhitespace) = [] := by
      rw [List.filter_eq_nil_iff]
      intro a ha
      simp [hws a ha]
    rw [searchNotes, if_pos (by rw [h0]; rfl)]
  · intro r hr
    rw [searchNotes] at hr
    split at hr
    · cases hr
    · split at hr
      · cases hr
      · have hr2 := List.take_subset _ _ hr
        rw [mem_sortByModDesc, List.mem_map] at hr2
        obtain ⟨f, _, hf⟩ := hr2
        rw [← hf]
        simp [snippetsFor]
  · rw [searchNotes]
    split
    · exact Nat.zero_le _
    · split
      · exact Nat.zero_le _
      · simp [searchResults, List.length_take]
  · rw [searchNotes]
    split
    · rfl
    · split
      · rfl
      · rfl

/-- Witness for `c8_search_shape`: the whitespace query yields the empty
response, and on a one-file vault the total equals the returned count. -/
theorem c8_search_shape_witness :
    searchNotes [noteFile] [' ', ' '] 5 = ⟨[], 0⟩ ∧
    (searchNotes [noteFile] ['k', 'e', 'y'] 5).total =
      (searchNotes [noteFile] ['k', 'e', 'y'] 5).results.length :=
  ⟨(c8_search_shape [noteFile] [' ', ' '] 5).1 (by decide),
   (c8_search_shape [noteFile] ['k', 'e', 'y'] 5).2.2.2⟩

/-! ## VersionControl: content at a commit
(GitService.get_file_content_at_commit)

The external `git show hash:path` call is modelled on a repository given as
a map from commit hash to the tree at that commit (path ↦ content),
together with the set of paths present in the working tree, with git's
documented outcomes: success prints the content; a hash naming no object
fails with `fatal: Invalid object name <hash>.`; an existing revision
without the path fails with `fatal: path <path> does not exist in <hash>`
when the path is also absent from the working tree, and with
`fatal: path <path> exists on disk, but not in <hash>` when it is present
there (messages modulo git's quoting).  The wrapper is modelled for an
available, initialized repository and an in-vault path — the claim concerns
only the error classification of the `git show` outcome. -/

/-- Outcome of one subprocess invocation. -/
structure ProcOut where
  rc : Nat
  stdout : List Char
  stderr : List Char
  deriving DecidableEq, Repr

/-- Association-list lookup by char-list key. -/
def lookupA {α : Type} (k : List Char) (m : List (List Char × α)) : Option α :=
  match m.find? (fun e => decide (e.1 = k)) with
  | some e => some e.2
  | none => none

/-- A git repository: commit hash ↦ (path ↦ content). -/
abbrev GitRepo := List (List Char × List (List Char × List Char))

/-- Stderr of `git show` for a hash that names no object. -/
def msgInvalidObject (hash : List Char) : List Char :=
  ("fatal: Invalid object name ".data) ++ hash ++ (".".data)

/-- Stderr of `git show` for a path absent at an existing revision and
absent from the working tree. -/
def msgPathAbsent (path hash : List Char) : List Char :=
  ("fatal: path ".data) ++ path ++ (" does not exist in ".data) ++ hash

/-- Stderr of `git show` for a path absent at an existing revision but
present in the working tree. -/
def msgOnDisk (path hash : List Char) : List Char :=
  ("fatal: path ".data) ++ path ++ (" exists on disk, but not in ".data) ++ hash

/-- The modelled `git show hash:path` invocation; `disk` is the set of
paths present in the working tree. -/
def gitShow (repo : GitRepo) (disk : List (List Char)) (hash path : List Char) :
    ProcOut :=
  match lookupA hash repo with
  | none => ⟨128, [], msgInvalidObject hash⟩
  | some tree =>
    match lookupA path tree with
    | none =>
      if disk.contains path then ⟨128, [], msgOnDisk path hash⟩
      else ⟨128, [], msgPathAbsent path hash⟩
    | some content => ⟨0, content, []⟩

/-- Error kinds of the history-content operation: the NotFoundInCommit
classification (the `File not found in commit` ValueError the API maps to
404) versus an unclassified error carrying the tool's stderr. -/
inductive GitErr where
  | notFoundInCommit
  | genericErr (msg : List Char)
  deriving DecidableEq, Repr

/-- GitService.get_file_content_at_commit: run `git show`; on success
return stdout; on failure classify as NotFoundInCommit exactly when the
lower-cased stderr contains `not found` or `does not exist`, else raise the
generic error. -/
def getFileContentAtCommit (repo : GitRepo) (disk : List (List Char))
    (path hash : List Char) : Except GitErr (List Char) :=
  let r := gitShow repo disk hash path
  if r.rc = 0 then .ok r.stdout
  else if containsSub ("not found".data) (lowerL r.stderr) ||
          containsSub ("does not exist".data) (lowerL r.stderr) then
    .error .notFoundInCommit
  else .error (.genericErr r.stderr)

theorem containsSub_infix_iff (p : List Char) :
    ∀ s, containsSub p s = true ↔ p <:+: s := by
  intro s
  induction s with
  | nil =>
    rw [containsSub]
    cases p <;> simp
  | cons c cs ih =>
    rw [containsSub, Bool.or_eq_true, ih, List.infix_cons_iff,
      List.isPrefixOf_iff_prefix]

theorem infix_of_middle (p a m b : List Char) (h : p <:+: m) :
    p <:+: a ++ m ++ b := by
  obtain ⟨u, v, huv⟩ := h
  exact ⟨a ++ u, v ++ b, by rw [← huv]; simp⟩

/-! ## Claim C9: NotFoundInCommit classification -/

/-- C9 (counterexample): with a hash that names no commit, `git show` fails
with `Invalid object name`, whose lower-cased text contains neither
`not found` nor `does not exist`, so get_file_content_at_commit raises the
generic unclassified error — not NotFoundInCommit as the claim includes.
Likewise when the path is absent at an existing commit but present in the
working tree (the scenario the API reaches, since the endpoint requires
get_note to succeed first): git reports `exists on disk, but not in`, which
also matches neither pattern, and the generic error is raised. -/
theorem c9_counterexample :
    (getFileContentAtCommit [] [] ['a', '.', 'm', 'd'] ['d', 'e', 'a', 'd'] =
       .error (.genericErr (msgInvalidObject ['d', 'e', 'a', 'd'])) ∧
     getFileContentAtCommit [] [] ['a', '.', 'm', 'd'] ['d', 'e', 'a', 'd'] ≠
       .error .notFoundInCommit) ∧
    (getFileContentAtCommit [(['a', 'b'], [])] [['a', '.', 'm', 'd']]
        ['a', '.', 'm', 'd'] ['a', 'b'] =
       .error (.genericErr (msgOnDisk ['a', '.', 'm', 'd'] ['a', 'b'])) ∧
     getFileContentAtCommit [(['a', 'b'], [])] [['a', '.', 'm', 'd']]
        ['a', '.', 'm', 'd'] ['a', 'b'] ≠
       .error .notFoundInCommit) := by
  refine ⟨⟨by decide, by decide⟩, by decide, by decide⟩

/-- C9 (amended): for every hash that names an existing commit at which the
path is absent AND that is also absent from the working tree,
get_file_content_at_commit fails with the NotFoundInCommit classification;
a hash naming no commit, or a path absent at the revision but present in
the working tree (git then reports `exists on disk, but not in`), instead
produces the generic unclassified error. -/
theorem c9_amended :
    ∀ (repo : GitRepo) (disk : List (List Char)) (hash path : List Char)
      (tree : List (List Char × List Char)),
      lookupA hash repo = some tree → lookupA path tree = none →
      disk.contains path = false →
      getFileContentAtCommit repo disk path hash = .error .notFoundInCommit := by
  intro repo disk hash path tree hh hp hd
  rw [getFileContentAtCommit]
  have hs : gitShow repo disk hash path = ⟨128, [], msgPathAbsent path hash⟩ := by
    rw [gitShow, hh]
    dsimp only
    rw [hp]
    have hdm : path ∉ disk := by simpa using hd
    simp [hdm]
  rw [hs]
  have hinf : containsSub ("does not exist".data)
      (lowerL (msgPathAbsent path hash)) = true := by
    rw [containsSub_infix_iff]
    rw [msgPathAbsent, lowerL]
    rw [List.map_append, List.map_append, List.map_append]
    have hm : ("does not exist".data) <:+:
        (List.map Char.toLower (" does not exist in ".data)) := by decide
    have := infix_of_middle ("does not exist".data)
      (List.map Char.toLower ("fatal: path ".data) ++ List.map Char.toLower path)
      (List.map Char.toLower (" does not exist in ".data))
      (List.map Char.toLower hash) hm
    simpa [List.append_assoc] using this
  simp [hinf]

/-- Witness for `c9_amended`: a one-commit repository whose tree lacks the
requested path, which the working tree lacks as well. -/
theorem c9_amended_witness :
    getFileContentAtCommit [(['a', 'b'], [(['x'], ['h', 'i'])])] [['x']]
        ['y'] ['a', 'b'] = .error .notFoundInCommit :=
  c9_amended [(['a', 'b'], [(['x'], ['h', 'i'])])] [['x']] ['a', 'b'] ['y']
    [(['x'], ['h', 'i'])] (by decide) (by decide) (by decide)

/-! ## VersionControl status state
(GitService.commit_changes, GitService.commit_single_file)

The service's process-wide mutable fields are the state; one call's
subprocess outcomes (return codes, outputs, clock readings) are the
environment.  Branches that can only end in a recorded failure by raising
(timeouts and other exceptions) are collapsed into the corresponding
nonzero-return-code outcomes: they never return success and so do not
interact with the two properties below. -/

/-- GitService's process-wide state: `_initialized`, `_last_commit_time`,
`_last_error`, `_last_error_time`. -/
structure GitSt where
  initialized : Bool
  lastCommitTime : Option Int
  lastError : Option (List Char)
  lastErrorTime : Option Int
  deriving DecidableEq, Repr

/-- The outcomes of one commit call's subprocess invocations and clock
readings. -/
structure GitEnv where
  gitAvailable : Bool
  initOk : Bool
  gitignoreOk : Bool
  fileExists : Bool
  isBinary : Bool
  statusRc : Nat
  statusEmpty : Bool
  hasTextFiles : Bool
  addRc : Nat
  diffRc : Nat
  commitRc : Nat
  initErr : List Char
  gitignoreErr : List Char
  statusErr : List Char
  addErr : List Char
  commitErr : List Char
  now : Int
  commitNow : Int
  deriving DecidableEq, Repr

def errGitUnavailable : List Char := "Git is not available on this system".data

def errFileNotFound : List Char := "File not found".data

def errBinaryCommit : List Char := "Cannot commit binary file".data

/-- `f"Git status failed: {stderr}"`. -/
def statusFailMsg (e : List Char) : List Char := ("Git status failed: ".data) ++ e

/-- `f"Git add failed: {stderr}"`. -/
def addFailMsg (e : List Char) : List Char := ("Git add failed: ".data) ++ e

/-- `f"Git commit failed: {stderr}"`. -/
def commitFailMsg (e : List Char) : List Char := ("Git commit failed: ".data) ++ e

/-- GitService.commit_changes: availability, lazy initialization, ignore
rules, then status / stage-all / staged-diff / commit, recording failures
in the status fields, returning True on a no-op without touching them, and
clearing `last_error`/`last_error_time` on a successful commit. -/
def commit_changes (st : GitSt) (e : GitEnv) : Bool × GitSt :=
  if e.gitAvailable = false then
    (false, { st with lastError := some errGitUnavailable, lastErrorTime := some e.now })
  else if st.initialized = false ∧ e.initOk = false then
    (false, { st with lastError := some e.initErr, lastErrorTime := some e.now })
  else
    let st1 := if st.initialized then st else { st with initialized := true }
    if e.gitignoreOk = false then
      (false, { st1 with lastError := some e.gitignoreErr, lastErrorTime := some e.now })
    else if e.statusRc ≠ 0 then
      (false, { st1 with lastError := some (statusFailMsg e.statusErr),
                         lastErrorTime := some e.now })
    else if e.statusEmpty then (true, st1)
    else if e.hasTextFiles ∧ e.addRc ≠ 0 then
      (false, { st1 with lastError := some (addFailMsg e.addErr),
                         lastErrorTime := some e.now })
    else if e.diffRc = 0 then (true, st1)
    else if e.commitRc = 0 then
      (true, { st1 with lastCommitTime := some e.commitNow,
                        lastError := none, lastErrorTime := none })
    else
      (false, { st1 with lastError := some (commitFailMsg e.commitErr),
                         lastErrorTime := some e.now })

/-- GitService.commit_single_file: like commit_changes but checks that the
file exists and is not binary before the status / add / diff / commit
sequence on that single path. -/
def commit_single_file (st : GitSt) (e : GitEnv) : Bool × GitSt :=
  if e.gitAvailable = false then
    (false, { st with lastError := some errGitUnavailable, lastErrorTime := some e.now })
  else if st.initialized = false ∧ e.initOk = false then
    (false, { st with lastError := some e.initErr, lastErrorTime := some e.now })
  else
    let st1 := if st.initialized then st else { st with initialized := true }
    if e.gitignoreOk = false then
      (false, { st1 with lastError := some e.gitignoreErr, lastErrorTime := some e.now })
    else if e.fileExists = false then
      (false, { st1 with lastError := some errFileNotFound, lastErrorTime := some e.now })
    else if e.isBinary then
      (false, { st1 with lastError := some errBinaryCommit, lastErrorTime := some e.now })
    else if e.statusRc ≠ 0 then
      (false, { st1 with lastError := some (statusFailMsg e.statusErr),
                         lastErrorTime := some e.now })
    else if e.statusEmpty then (true, st1)
    else if e.addRc ≠ 0 then
      (false, { st1 with lastError := some (addFailMsg e.addErr),
                         lastErrorTime := some e.now })
    else if e.diffRc = 0 then (true, st1)
    else if e.commitRc = 0 then
      (true, { st1 with lastCommitTime := some e.commitNow,
                        lastError := none, lastErrorTime := none })
    else
      (false, { st1 with lastError := some (commitFailMsg e.commitErr),
                         lastErrorTime := some e.now })

/-! ## Claim C10: status-field frame and reset -/

/-- C10 (confirmed): a successful actual commit (commit subprocess returns
0) clears `last_error` and `last_error_time` and stamps
`last_commit_time`, in both commit_changes and commit_single_file; and a
no-op success — clean status, or nothing staged after add — returns True
leaving `last_commit_time`, `last_error` and `last_error_time` unchanged,
in both functions. -/
theorem c10_status_frame :
    (∀ (st : GitSt) (e : GitEnv),
      e.gitAvailable = true → (st.initialized = true ∨ e.initOk = true) →
      e.gitignoreOk = true → e.statusRc = 0 → e.statusEmpty = false →
      (e.hasTextFiles = false ∨ e.addRc = 0) → e.diffRc ≠ 0 → e.commitRc = 0 →
      (commit_changes st e).1 = true ∧
      (commit_changes st e).2.lastError = none ∧
      (commit_changes st e).2.lastErrorTime = none ∧
      (commit_changes st e).2.lastCommitTime = some e.commitNow) ∧
    (∀ (st : GitSt) (e : GitEnv),
      e.gitAvailable = true → (st.initialized = true ∨ e.initOk = true) →
      e.gitignoreOk = true → e.statusRc = 0 →
      (e.statusEmpty = true ∨
        (e.statusEmpty = false ∧ (e.hasTextFiles = false ∨ e.addRc = 0) ∧
         e.diffRc = 0)) →
      (commit_changes st e).1 = true ∧
      (commit_changes st e).2.lastCommitTime = st.lastCommitTime ∧
      (commit_changes st e).2.lastError = st.lastError ∧
      (commit_changes st e).2.lastErrorTime = st.lastErrorTime) ∧
    (∀ (st : GitSt) (e : GitEnv),
      e.gitAvailable = true → (st.initialized = true ∨ e.initOk = true) →
      e.gitignoreOk = true → e.fileExists = true → e.isBinary = false →
      e.statusRc = 0 → e.statusEmpty = false → e.addRc = 0 → e.diffRc ≠ 0 →
      e.commitRc = 0 →
      (commit_single_file st e).1 = true ∧
      (commit_single_file st e).2.lastError = none ∧
      (commit_single_file st e).2.lastErrorTime = none ∧
      (commit_single_file st e).2.lastCommitTime = some e.commitNow) ∧
    (∀ (st : GitSt) (e : GitEnv),
      e.gitAvailable = true → (st.initialized = true ∨ e.initOk = true) →
      e.gitignoreOk = true → e.fileExists = true → e.isBinary = false →
      e.statusRc = 0 →
      (e.statusEmpty = true ∨
        (e.statusEmpty = false ∧ e.addRc = 0 ∧ e.diffRc = 0)) →
      (commit_single_file st e).1 = true ∧
      (commit_single_file st e).2.lastCommitTime = st.lastCommitTime ∧
      (commit_single_file st e).2.lastError = st.lastError ∧
      (commit_single_file st e).2.lastErrorTime = st.lastErrorTime) := by
  refine ⟨?_, ?_, ?_, ?_⟩
  · intro st e ha hi hg hs hse hadd hd hc
    rcases hi with hi | hi <;> rcases hadd with hadd | hadd <;>
      cases hinit : st.initialized <;>
      simp_all [commit_changes]
  · intro st e ha hi hg hs hcase
    rcases hi with hi | hi <;>
      rcases hcase with hse | ⟨hse, hadd, hd⟩ <;>
      try rcases hadd with hadd | hadd
    all_goals cases hinit : st.initialized <;> simp_all [commit_changes]
  · intro st e ha hi hg hf hb hs hse hadd hd hc
    rcases hi with hi | hi <;> cases hinit : st.initialized <;>
      simp_all [commit_single_file]
  · intro st e ha hi hg hf hb hs hcase
    rcases hi with hi | hi <;>
      rcases hcase with hse | ⟨hse, hadd, hd⟩
    all_goals cases hinit : st.initialized <;> simp_all [commit_single_file]

/-- A state carrying a previously recorded failure. -/
def stErr : GitSt := ⟨true, some 3, some ['e'], some 4⟩

/-- An environment in which the commit subprocess succeeds. -/
def envCommit : GitEnv :=
  ⟨true, true, true, true, false, 0, false, true, 0, 1, 0,
   [], [], [], [], [], 7, 9⟩

/-- An environment in which the working tree is clean (no-op commit). -/
def envClean : GitEnv :=
  ⟨true, true, true, true, false, 0, true, false, 0, 0, 0,
   [], [], [], [], [], 7, 9⟩

/-- Witness for `c10_status_frame`: a successful commit_changes call from
an error-carrying state clears the error fields, and a clean-tree
commit_single_file call leaves all three fields unchanged. -/
theorem c10_status_frame_witness :
    ((commit_changes stErr envCommit).1 = true ∧
     (commit_changes stErr envCommit).2.lastError = none ∧
     (commit_changes stErr envCommit).2.lastErrorTime = none ∧
     (commit_changes stErr envCommit).2.lastCommitTime = some 9) ∧
    ((commit_single_file stErr envClean).1 = true ∧
     (commit_single_file stErr envClean).2.lastCommitTime = stErr.lastCommitTime ∧
     (commit_single_file stErr envClean).2.lastError = stErr.lastError ∧
     (commit_single_file stErr envClean).2.lastErrorTime = stErr.lastErrorTime) :=
  ⟨c10_status_frame.1 stErr envCommit (by decide) (Or.inl (by decide)) (by decide)
      (by decide) (by decide) (Or.inr (by decide)) (by decide) (by decide),
   c10_status_frame.2.2.2 stErr envClean (by decide) (Or.inl (by decide)) (by decide)
      (by decide) (by decide) (by decide) (Or.inl (by decide))⟩

end KBase
